import Mathlib

/-!
Verification of the `ajax` promise helper (Comet-capable variant).

The JavaScript source is embedded shallowly:
* strings are `List Char`;
* the comet polling tick (source lines 103–113 of the comet variant) is a pure
  step function on the reader's cursor state;
* the `readystatechange` handler plus the polling timer are modelled as a
  state machine driven by an explicit event trace, with the platform promise's
  settle-once behaviour made explicit;
* the option-normalization / body-serialization prologue is modelled with an
  explicit store of header objects so that in-place mutation of the caller's
  descriptor is observable.

External collaborators (the JSON codec) are taken as parameters, matching the
spec's treatment of them as black boxes; `encodeURIComponent` and the flat
`JSON.stringify` used on request bodies are implemented concretely.
-/

set_option autoImplicit false

namespace Ajax

/-- Strings of the embedded program, as lists of characters. -/
abbrev Str := List Char

/-- Characters matched by the separator class of the regex `[\n\r]+`. -/
def isSep (c : Char) : Bool :=
  c = '\n' || c = '\r'

/-- JavaScript `s.split(/[\n\r]+/)`: split on maximal runs of `'\n'`/`'\r'`.
The result is never empty; only its first and last element can be empty. -/
def splitRuns : Str → List Str
  | [] => [[]]
  | [c] => if isSep c then [[], []] else [[c]]
  | c :: c' :: cs =>
    if isSep c then
      if isSep c' then splitRuns (c' :: cs)
      else [] :: splitRuns (c' :: cs)
    else
      match splitRuns (c' :: cs) with
      | [] => [[c]]
      | h :: t => (c :: h) :: t

example : splitRuns ("ab\ncd".toList) = ["ab".toList, "cd".toList] := by decide
example : splitRuns ("ab\n\r\ncd\n".toList) = ["ab".toList, "cd".toList, []] := by decide
example : splitRuns ("\nab".toList) = [[], "ab".toList] := by decide
example : splitRuns [] = [[]] := by decide
example : splitRuns ("\n".toList) = [[], []] := by decide

theorem splitRuns_ne_nil (s : Str) : splitRuns s ≠ [] := by
  induction s using splitRuns.induct with
  | case1 => simp [splitRuns]
  | case2 c hc => simp [splitRuns, hc]
  | case3 c hc => simp [splitRuns, hc]
  | case4 c c' cs hc hc' ih => simpa [splitRuns, hc, hc'] using ih
  | case5 c c' cs hc hc' ih => simp [splitRuns, hc, hc']
  | case6 c c' cs hc hm ih => exact absurd hm ih
  | case7 c c' cs hc h t hm ih => simp [splitRuns, hc, hm]

theorem splitRuns_length_pos (s : Str) : 1 ≤ (splitRuns s).length := by
  have h := splitRuns_ne_nil s
  cases hs : splitRuns s with
  | nil => exact absurd hs h
  | cons a t => simp

/-- A non-separator first character starts the first chunk of the split. -/
theorem splitRuns_cons_head (c : Char) (cs : Str) (h : isSep c = false) :
    ∃ h' t, splitRuns (c :: cs) = (c :: h') :: t := by
  cases cs with
  | nil => exact ⟨[], [], by simp [splitRuns, h]⟩
  | cons c' cs' =>
    have hne := splitRuns_ne_nil (c' :: cs')
    cases hm : splitRuns (c' :: cs') with
    | nil => exact absurd hm hne
    | cons hh tt => exact ⟨hh, tt, by simp [splitRuns, h, hm]⟩

/-- A separator first character forces an empty first chunk and at least two chunks. -/
theorem splitRuns_sep_head (cs : Str) :
    ∀ c : Char, isSep c = true →
      (splitRuns (c :: cs)).head? = some [] ∧ 2 ≤ (splitRuns (c :: cs)).length := by
  induction cs with
  | nil => intro c h; simp [splitRuns, h]
  | cons c' cs' ih =>
    intro c h
    by_cases h' : isSep c' = true
    · simpa [splitRuns, h, h'] using ih c' h'
    · have h'' : isSep c' = false := by simpa using h'
      have hpos := splitRuns_length_pos (c' :: cs')
      simp [splitRuns, h, h'']
      omega

/-- Every chunk of the split other than the first and the last is non-empty
(runs of separators are collapsed, so no internal empty chunk can appear). -/
theorem splitRuns_middle_ne_nil (s : Str) :
    ∀ i x, (splitRuns s).get? i = some x → 1 ≤ i → i + 2 ≤ (splitRuns s).length →
      x ≠ [] := by
  induction s using splitRuns.induct with
  | case1 =>
    intro i x _ h1 h2
    have hl : (splitRuns ([] : Str)).length = 1 := by simp [splitRuns]
    rw [hl] at h2
    omega
  | case2 c hc =>
    intro i x _ h1 h2
    have hl : (splitRuns [c]).length = 2 := by simp [splitRuns, hc]
    rw [hl] at h2
    omega
  | case3 c hc =>
    intro i x _ h1 h2
    have hl : (splitRuns [c]).length = 1 := by simp [splitRuns, hc]
    rw [hl] at h2
    omega
  | case4 c c' cs hc hc' ih =>
    intro i x hget h1 h2
    rw [show splitRuns (c :: c' :: cs) = splitRuns (c' :: cs) by
      simp [splitRuns, hc, hc']] at hget h2
    exact ih i x hget h1 h2
  | case5 c c' cs hc hc' ih =>
    intro i x hget h1 h2
    have hc'' : isSep c' = false := by simpa using hc'
    rw [show splitRuns (c :: c' :: cs) = [] :: splitRuns (c' :: cs) by
      simp [splitRuns, hc, hc'']] at hget h2
    match i, h1 with
    | Nat.succ j, _ =>
      rw [List.get?_cons_succ] at hget
      simp only [List.length_cons] at h2
      cases j with
      | zero =>
        obtain ⟨h', t', hrep⟩ := splitRuns_cons_head c' cs hc''
        rw [hrep] at hget
        simp at hget
        simp [← hget]
      | succ k =>
        exact ih (k + 1) x hget (by omega) (by omega)
  | case6 c c' cs hc hm ih => exact absurd hm (splitRuns_ne_nil _)
  | case7 c c' cs hc h t hm ih =>
    intro i x hget h1 h2
    rw [show splitRuns (c :: c' :: cs) = (c :: h) :: t by
      simp [splitRuns, hc, hm]] at hget h2
    match i, h1 with
    | Nat.succ j, _ =>
      rw [List.get?_cons_succ] at hget
      simp only [List.length_cons] at h2
      have hget' : (splitRuns (c' :: cs)).get? (j + 1) = some x := by
        rw [hm, List.get?_cons_succ]; exact hget
      exact ih (j + 1) x hget' (by omega) (by rw [hm]; simp; omega)

/-- Appending to the buffer can only refine the last chunk of the split:
the chunk count never drops, and all chunks other than the last are stable. -/
theorem splitRuns_append (t : Str) :
    ∀ s : Str, (splitRuns s).length ≤ (splitRuns (s ++ t)).length ∧
      ∀ i, i + 1 < (splitRuns s).length →
        (splitRuns (s ++ t)).get? i = (splitRuns s).get? i := by
  intro s
  induction s using splitRuns.induct with
  | case1 =>
    refine ⟨by simpa [splitRuns] using splitRuns_length_pos t, ?_⟩
    intro i hi
    simp [splitRuns] at hi
  | case2 c hc =>
    obtain ⟨hhead, hlen⟩ := splitRuns_sep_head t c hc
    constructor
    · simpa [splitRuns, hc] using hlen
    · intro i hi
      have hl : (splitRuns [c]).length = 2 := by simp [splitRuns, hc]
      rw [hl] at hi
      have hi0 : i = 0 := by omega
      subst hi0
      rw [show (splitRuns [c]).get? 0 = some [] by simp [splitRuns, hc]]
      rw [show ([c] ++ t : Str) = c :: t by simp]
      cases hsp : splitRuns (c :: t) with
      | nil => exact absurd hsp (splitRuns_ne_nil _)
      | cons a b =>
        rw [hsp] at hhead
        simp at hhead
        simp [hhead]
  | case3 c hc =>
    constructor
    · simpa [splitRuns, hc] using splitRuns_length_pos ([c] ++ t)
    · intro i hi
      simp [splitRuns, hc] at hi
  | case4 c c' cs hc hc' ih =>
    have e1 : splitRuns (c :: c' :: cs) = splitRuns (c' :: cs) := by
      simp [splitRuns, hc, hc']
    have e2 : splitRuns ((c :: c' :: cs) ++ t) = splitRuns ((c' :: cs) ++ t) := by
      simp only [List.cons_append]
      simp [splitRuns, hc, hc']
    rw [e1, e2]
    exact ih
  | case5 c c' cs hc hc' ih =>
    have hc'' : isSep c' = false := by simpa using hc'
    have e1 : splitRuns (c :: c' :: cs) = [] :: splitRuns (c' :: cs) := by
      simp [splitRuns, hc, hc'']
    have e2 : splitRuns ((c :: c' :: cs) ++ t) = [] :: splitRuns ((c' :: cs) ++ t) := by
      simp only [List.cons_append]
      simp [splitRuns, hc, hc'']
    rw [e1, e2]
    obtain ⟨ihlen, ihget⟩ := ih
    refine ⟨by simpa using ihlen, ?_⟩
    intro i hi
    cases i with
    | zero => simp
    | succ j =>
      simp only [List.get?_cons_succ]
      exact ihget j (by simpa using hi)
  | case6 c c' cs hc hm ih => exact absurd hm (splitRuns_ne_nil _)
  | case7 c c' cs hc h tl hm ih =>
    simp only [List.cons_append] at ih ⊢
    have e1 : splitRuns (c :: c' :: cs) = (c :: h) :: tl := by
      simp [splitRuns, hc, hm]
    obtain ⟨h', tl', hm'⟩ : ∃ h' tl', splitRuns (c' :: (cs ++ t)) = h' :: tl' := by
      cases hx : splitRuns (c' :: (cs ++ t)) with
      | nil => exact absurd hx (splitRuns_ne_nil _)
      | cons a b => exact ⟨a, b, rfl⟩
    have e2 : splitRuns (c :: c' :: (cs ++ t)) = (c :: h') :: tl' := by
      simp only [splitRuns, hc]
      rw [hm']
      simp
    obtain ⟨ihlen, ihget⟩ := ih
    rw [hm, hm'] at ihlen ihget
    rw [e1, e2]
    constructor
    · simpa using ihlen
    · intro i hi
      cases i with
      | zero =>
        have := ihget 0 (by simpa using hi)
        simp at this
        simp [this]
      | succ j =>
        simp only [List.get?_cons_succ]
        have := ihget (j + 1) (by simpa using hi)
        simpa using this

/-- `lines[lines.length - 2]` of the JS tick: the second-to-last chunk of the
split, `none` when the split has fewer than two chunks (JS yields `undefined`). -/
def selectLine (s : Str) : Option Str :=
  if (splitRuns s).length < 2 then none
  else (splitRuns s).get? ((splitRuns s).length - 2)

/-- JavaScript truthiness of the selected element: `undefined` (`none`) and the
empty string are falsy, every non-empty string is truthy. -/
def truthyOpt : Option Str → Bool
  | none => false
  | some [] => false
  | some (_ :: _) => true

example : selectLine ("ab\ncd".toList) = some ("ab".toList) := by decide
example : selectLine ("ab\ncd\n".toList) = some ("cd".toList) := by decide
example : selectLine ("ab".toList) = none := by decide
example : selectLine ("\nab".toList) = some [] := by decide

theorem truthyOpt_some (x : Str) : truthyOpt (some x) = true ↔ x ≠ [] := by
  cases x <;> simp [truthyOpt]

/-- Once the reader has seen a truthy second-to-last line, every later (longer)
buffer also has a truthy second-to-last line: appending data can only extend
or split the last chunk, and internal chunks are never empty. -/
theorem truthy_selectLine_append (s t : Str)
    (h : truthyOpt (selectLine s) = true) :
    truthyOpt (selectLine (s ++ t)) = true := by
  by_cases h2 : (splitRuns s).length < 2
  · rw [selectLine, if_pos h2] at h
    simp [truthyOpt] at h
  · rw [selectLine, if_neg h2] at h
    obtain ⟨hlen, hget⟩ := splitRuns_append t s
    have h2' : ¬ (splitRuns (s ++ t)).length < 2 := by omega
    rw [selectLine, if_neg h2']
    obtain ⟨x, hx⟩ : ∃ x, (splitRuns s).get? ((splitRuns s).length - 2) = some x := by
      cases hc : (splitRuns s).get? ((splitRuns s).length - 2) with
      | none => rw [hc] at h; simp [truthyOpt] at h
      | some y => exact ⟨y, rfl⟩
    rw [hx] at h
    have hxne : x ≠ [] := (truthyOpt_some x).mp h
    by_cases heq : (splitRuns (s ++ t)).length = (splitRuns s).length
    · rw [heq]
      rw [hget ((splitRuns s).length - 2) (by omega), hx]
      exact h
    · have hgt : (splitRuns s).length < (splitRuns (s ++ t)).length := by omega
      have hlt : (splitRuns (s ++ t)).length - 2 < (splitRuns (s ++ t)).length := by
        omega
      rw [List.get?_eq_get hlt]
      have hmid := splitRuns_middle_ne_nil (s ++ t)
        ((splitRuns (s ++ t)).length - 2)
        ((splitRuns (s ++ t)).get ⟨(splitRuns (s ++ t)).length - 2, hlt⟩)
        (List.get?_eq_get hlt) (by omega) (by omega)
      exact (truthyOpt_some _).mpr hmid

/-- Cursor state of the polling reader: `lastLine` mirrors the JS `lastLine`
variable (both `null` and `undefined` collapse to `none`, which is
behaviour-preserving since the comparison only matters for truthy lines),
`cometLength` mirrors the `cometLength` offset. -/
structure CometSt where
  lastLine : Option Str
  cometLength : Nat
  deriving DecidableEq

/-- One tick of the comet interval (source lines 105–112):
record the buffer length, split on `[\n\r]+`, select the second-to-last
element, fire the callback when that element is truthy and differs from the
previous tick's element, and unconditionally remember the element.
Returns the new cursor state and the emitted line, if any. -/
def cometTick (st : CometSt) (buf : Str) : CometSt × Option Str :=
  let line := selectLine buf
  ({ lastLine := line, cometLength := buf.length },
   if truthyOpt line = true ∧ line ≠ st.lastLine then line else none)

/-- Per-tick emissions of the reader over a sequence of observed buffers. -/
def cometTrace (st : CometSt) : List Str → List (Option Str)
  | [] => []
  | b :: bs => (cometTick st b).2 :: cometTrace (cometTick st b).1 bs

/-- Reference tick following the specification's words (§4.2 step 5): the
state is the previously *delivered* line, and it is updated only when the
callback is invoked, i.e. when the selected element exists (is a usable,
non-empty line) and differs from the previously delivered one. -/
def cometSpecTick (last : Option Str) (buf : Str) : Option Str × Option Str :=
  let line := selectLine buf
  if truthyOpt line = true ∧ line ≠ last then (line, line) else (last, none)

/-- Per-tick emissions of the specification's reference reader. -/
def cometSpecTrace (last : Option Str) : List Str → List (Option Str)
  | [] => []
  | b :: bs => (cometSpecTick last b).2 :: cometSpecTrace (cometSpecTick last b).1 bs

/-- Executable prefix test on embedded strings. -/
def isPrefixList : Str → Str → Bool
  | [], _ => true
  | _ :: _, [] => false
  | c0 :: t0, c :: tl => c0 = c && isPrefixList t0 tl

theorem isPrefixList_iff (b0 b : Str) :
    isPrefixList b0 b = true ↔ ∃ t, b = b0 ++ t := by
  induction b0 generalizing b with
  | nil => simp [isPrefixList]
  | cons c0 t0 ih =>
    cases b with
    | nil =>
      simp [isPrefixList]
    | cons c tl =>
      simp only [isPrefixList, Bool.and_eq_true, decide_eq_true_eq, ih]
      constructor
      · rintro ⟨rfl, t, rfl⟩; exact ⟨t, rfl⟩
      · rintro ⟨t, ht⟩
        injection ht with h1 h2
        exact ⟨h1.symm, t, h2⟩

/-- A buffer sequence in which each buffer extends the previous one
(and the first extends `b0`): the monotone growth guaranteed for a
streaming response body (spec §5). -/
def ChainB : Str → List Str → Bool
  | _, [] => true
  | b0, b :: bs => isPrefixList b0 b && ChainB b bs

theorem truthy_ne_falsy (a b : Option Str) (h1 : truthyOpt a = true)
    (h2 : truthyOpt b = false) : a ≠ b := by
  intro h
  rw [h, h2] at h1
  cases h1

/-- Simulation invariant between the code's cursor (previously selected
element) and the spec's cursor (previously delivered line): before any
delivery both are falsy resp. absent; after a delivery they agree and equal
the selection of some already-observed buffer `b0`. -/
def CometInv (st : CometSt) (last : Option Str) (b0 : Str) : Prop :=
  (last = none ∧ truthyOpt st.lastLine = false) ∨
  (st.lastLine = last ∧ last = selectLine b0 ∧ truthyOpt (selectLine b0) = true)

theorem cometTrace_eq_aux :
    ∀ (bufs : List Str) (b0 : Str) (st : CometSt) (last : Option Str),
      ChainB b0 bufs = true → CometInv st last b0 →
      cometTrace st bufs = cometSpecTrace last bufs := by
  intro bufs
  induction bufs with
  | nil => intros; rfl
  | cons buf bs ih =>
    intro b0 st last hchain hinv
    have hchain' : isPrefixList b0 buf = true ∧ ChainB buf bs = true := by
      simpa [ChainB, Bool.and_eq_true] using hchain
    obtain ⟨hpre, hch⟩ := hchain'
    obtain ⟨t, hbuf⟩ := (isPrefixList_iff b0 buf).mp hpre
    rcases hinv with ⟨hnone, hfals⟩ | ⟨hst, hlast, htr⟩
    · -- before any delivery
      subst hnone
      by_cases htl : truthyOpt (selectLine buf) = true
      · have hne1 : selectLine buf ≠ st.lastLine := truthy_ne_falsy _ _ htl hfals
        have hne2 : selectLine buf ≠ none := truthy_ne_falsy _ _ htl rfl
        simp only [cometTrace, cometSpecTrace, cometTick, cometSpecTick,
          if_pos (And.intro htl hne1), if_pos (And.intro htl hne2)]
        refine congrArg _ ?_
        exact ih buf _ _ hch (Or.inr ⟨rfl, rfl, htl⟩)
      · have htl' : truthyOpt (selectLine buf) = false := by simpa using htl
        have hcond1 : ¬ (truthyOpt (selectLine buf) = true ∧
            selectLine buf ≠ st.lastLine) := by
          intro h; exact htl h.1
        have hcond2 : ¬ (truthyOpt (selectLine buf) = true ∧
            (selectLine buf ≠ (none : Option Str))) := by
          intro h; exact htl h.1
        simp only [cometTrace, cometSpecTrace, cometTick, cometSpecTick,
          if_neg hcond1, if_neg hcond2]
        refine congrArg _ ?_
        exact ih buf _ _ hch (Or.inl ⟨rfl, htl'⟩)
    · -- after some delivery: both cursors hold the same truthy line
      have htr' : truthyOpt (selectLine buf) = true := by
        rw [hbuf]; exact truthy_selectLine_append b0 t htr
      by_cases hne : selectLine buf = last
      · have hcond1 : ¬ (truthyOpt (selectLine buf) = true ∧
            selectLine buf ≠ st.lastLine) := by
          rw [hst]; intro h; exact h.2 hne
        have hcond2 : ¬ (truthyOpt (selectLine buf) = true ∧
            selectLine buf ≠ last) := by
          intro h; exact h.2 hne
        simp only [cometTrace, cometSpecTrace, cometTick, cometSpecTick,
          if_neg hcond1, if_neg hcond2]
        refine congrArg _ ?_
        refine ih buf _ _ hch (Or.inr ⟨?_, ?_, htr'⟩)
        · exact hne.symm ▸ rfl
        · exact hne.symm
      · have hcond1 : truthyOpt (selectLine buf) = true ∧
            selectLine buf ≠ st.lastLine := ⟨htr', by rw [hst]; exact hne⟩
        have hcond2 : truthyOpt (selectLine buf) = true ∧
            selectLine buf ≠ last := ⟨htr', hne⟩
        simp only [cometTrace, cometSpecTrace, cometTick, cometSpecTick,
          if_pos hcond1, if_pos hcond2]
        refine congrArg _ ?_
        exact ih buf _ _ hch (Or.inr ⟨rfl, rfl, htr'⟩)

/-- If a tick emits a line, the cursor afterwards remembers exactly it. -/
theorem cometTick_emit_lastLine (st : CometSt) (b : Str) (l : Str)
    (h : (cometTick st b).2 = some l) :
    (cometTick st b).1.lastLine = some l := by
  by_cases hc : truthyOpt (selectLine b) = true ∧ selectLine b ≠ st.lastLine
  · rw [cometTick, if_pos hc] at h
    simpa [cometTick] using h
  · rw [cometTick, if_neg hc] at h
    cases h

theorem cometTrace_head_ne_last (st : CometSt) (bs : List Str) (l : Str)
    (h : st.lastLine = some l) :
    (cometTrace st bs).get? 0 ≠ some (some l) := by
  cases bs with
  | nil => simp [cometTrace]
  | cons b bs' =>
    simp only [cometTrace, List.get?_cons_zero]
    intro hc
    have hc' : (cometTick st b).2 = some l := by injection hc
    by_cases hcond : truthyOpt (selectLine b) = true ∧ selectLine b ≠ st.lastLine
    · rw [cometTick, if_pos hcond] at hc'
      simp only [] at hc'
      exact hcond.2 (by rw [hc', h])
    · rw [cometTick, if_neg hcond] at hc'
      cases hc'

/-- The reader never emits the same line on two consecutive ticks. -/
theorem cometTrace_no_consecutive_repeat :
    ∀ (bs : List Str) (st : CometSt) (i : Nat) (l : Str),
      (cometTrace st bs).get? i = some (some l) →
      (cometTrace st bs).get? (i + 1) ≠ some (some l) := by
  intro bs
  induction bs with
  | nil => intro st i l h; simp [cometTrace] at h
  | cons b bs' ih =>
    intro st i l h
    cases i with
    | zero =>
      simp only [cometTrace, List.get?_cons_zero] at h
      have he : (cometTick st b).2 = some l := by injection h
      have hlast := cometTick_emit_lastLine st b l he
      simp only [cometTrace, List.get?_cons_succ]
      exact cometTrace_head_ne_last _ bs' l hlast
    | succ j =>
      simp only [cometTrace, List.get?_cons_succ] at h ⊢
      exact ih _ j l h

/-- C1: on every polling tick while the transaction is open, the reader reads
the full partial response text, records its length as the new last-flushed
offset, splits it on runs of `\n`/`\r` and selects the second-to-last element;
over any monotonically growing sequence of observed buffers, the callback is
invoked with that element exactly when it exists (is a usable, non-empty line)
and differs from the previously delivered line — the per-tick emissions of the
code's reader coincide with those of the specification's
previously-delivered-line reader — and the callback is never invoked with the
same line on two consecutive ticks. -/
theorem comet_polling_faithful (bufs : List Str) (b0 : Str)
    (hchain : ChainB b0 bufs = true) :
    cometTrace { lastLine := none, cometLength := 0 } bufs =
        cometSpecTrace none bufs
    ∧ (∀ st b, ((cometTick st b).1).cometLength = b.length
        ∧ ((cometTick st b).1).lastLine = selectLine b)
    ∧ (∀ st bs i l, (cometTrace st bs).get? i = some (some l) →
        (cometTrace st bs).get? (i + 1) ≠ some (some l)) := by
  refine ⟨?_, ?_, fun st bs => cometTrace_no_consecutive_repeat bs st⟩
  · exact cometTrace_eq_aux bufs b0 _ none hchain (Or.inl ⟨rfl, rfl⟩)
  · intro st b
    exact ⟨rfl, rfl⟩

/-- Concrete growing buffer sequence for the polling reader. -/
def cometW1 : List Str :=
  [("ab\ncd").toList, ("ab\ncd\nef\n").toList, ("ab\ncd\nef\n").toList]

theorem comet_polling_faithful_witness :
    (ChainB [] cometW1 = true)
    ∧ cometTrace { lastLine := none, cometLength := 0 } cometW1 =
        cometSpecTrace none cometW1
    ∧ cometTrace { lastLine := none, cometLength := 0 } cometW1 =
        [some ("ab".toList), some ("ef".toList), none] :=
  ⟨by decide, (comet_polling_faithful cometW1 [] (by decide)).1, by decide⟩

/-- The response data observable on the XHR object once `readyState === 4`. -/
structure Resp where
  status : Nat
  statusText : Str
  contentType : Option Str
  responseText : Str
  deriving DecidableEq

/-- The exact content type compared against by the handler. -/
def ctJson : Str := ("application/json").toList

/-- Snapshot of the request object passed to `resolve(this)`: the final
response data plus the `responseJSON` / `responseComet` properties that the
handler may have attached. `J` is the black-box type of decoded JSON values. -/
structure XhrDone (J : Type) where
  status : Nat
  statusText : Str
  contentType : Option Str
  responseText : Str
  responseJSON : Option J
  responseComet : Option Str
  deriving DecidableEq

/-- Terminal outcome of the promise returned by `ajax`. -/
inductive Settled (J : Type) where
  | resolved (x : XhrDone J)
  | rejected (msg : Str)
  deriving DecidableEq

/-- State of one `ajax` invocation: the timer id assigned by `setInterval`
(`timerStarted`, which stays truthy even after `clearInterval`), whether the
interval is still scheduled (`timerActive`), the polling cursor, the
properties attached to the request object, the promise's settlement
(`none` while pending; a JS promise ignores later settle calls), whether an
uncaught exception escaped the handler, and the log of comet callback
invocations. -/
structure AjaxSt (J : Type) where
  timerStarted : Bool
  timerActive : Bool
  cometLength : Nat
  lastLine : Option Str
  responseJSON : Option J
  responseComet : Option Str
  settled : Option (Settled J)
  faulted : Bool
  emitted : List Str
  deriving DecidableEq

/-- `resolve(x)`: settles the promise unless it is already settled. -/
def settleResolve {J : Type} (s : AjaxSt J) (x : XhrDone J) : AjaxSt J :=
  if s.settled.isSome then s else { s with settled := some (Settled.resolved x) }

/-- `reject(Error(msg))`: settles the promise unless it is already settled. -/
def settleReject {J : Type} (s : AjaxSt J) (msg : Str) : AjaxSt J :=
  if s.settled.isSome then s else { s with settled := some (Settled.rejected msg) }

/-- The `readystatechange` handler body for `readyState === 4`
(source lines 45–61): if a comet timer was started, clear the interval and
attach `responseComet = responseText.substr(cometLength)`; then resolve on a
2xx status (attaching `responseJSON` first when the `Content-Type` response
header is exactly `application/json`; a JSON parse failure aborts the handler
uncaught, so neither `resolve` nor `reject` runs), otherwise reject with the
status text. -/
def handleDone {J : Type} (parse : Str → Except Unit J) (s : AjaxSt J)
    (r : Resp) : AjaxSt J :=
  let s1 := if s.timerStarted then
      { s with timerActive := false,
               responseComet := some (r.responseText.drop s.cometLength) }
    else s
  if 200 ≤ r.status ∧ r.status ≤ 299 then
    if r.contentType = some ctJson then
      match parse r.responseText with
      | Except.error _ => { s1 with faulted := true }
      | Except.ok j =>
        let s2 := { s1 with responseJSON := some j }
        settleResolve s2
          { status := r.status, statusText := r.statusText,
            contentType := r.contentType, responseText := r.responseText,
            responseJSON := s2.responseJSON, responseComet := s2.responseComet }
    else
      settleResolve s1
        { status := r.status, statusText := r.statusText,
          contentType := r.contentType, responseText := r.responseText,
          responseJSON := s1.responseJSON, responseComet := s1.responseComet }
  else
    settleReject s1 r.statusText

/-- A scheduled event: a firing of the polling interval (observing the
current partial buffer) or a `readystatechange` notification. -/
inductive Ev where
  | tick (buf : Str)
  | rsc (rs : Nat) (r : Resp)
  deriving DecidableEq

/-- A tick of the interval fires only while the interval is scheduled. -/
def handleTick {J : Type} (s : AjaxSt J) (buf : Str) : AjaxSt J :=
  if s.timerActive then
    let t := cometTick { lastLine := s.lastLine, cometLength := s.cometLength } buf
    { s with lastLine := t.1.lastLine, cometLength := t.1.cometLength,
             emitted := s.emitted ++ t.2.toList }
  else s

/-- One event step; `readystatechange` with `readyState ≠ 4` does nothing. -/
def stepEv {J : Type} (parse : Str → Except Unit J) (s : AjaxSt J) :
    Ev → AjaxSt J
  | Ev.tick buf => handleTick s buf
  | Ev.rsc rs r => if rs = 4 then handleDone parse s r else s

/-- Run the invocation over an event trace. -/
def runEv {J : Type} (parse : Str → Except Unit J) (s : AjaxSt J)
    (evs : List Ev) : AjaxSt J :=
  evs.foldl (stepEv parse) s

/-- State right after the synchronous body of `ajax` ran: the interval is
started exactly when a comet callback was supplied. -/
def initAjax (J : Type) (cometEnabled : Bool) : AjaxSt J :=
  { timerStarted := cometEnabled, timerActive := cometEnabled,
    cometLength := 0, lastLine := none, responseJSON := none,
    responseComet := none, settled := none, faulted := false, emitted := [] }

/-- Is this event the terminal `readyState === 4` notification? -/
def isDoneEv : Ev → Bool
  | Ev.rsc rs _ => rs == 4
  | _ => false

/-- A trace fragment containing no terminal notification. -/
def NoDone (evs : List Ev) : Bool :=
  evs.all (fun e => !isDoneEv e)

theorem runEv_append {J : Type} (parse : Str → Except Unit J) (s : AjaxSt J)
    (e1 e2 : List Ev) :
    runEv parse s (e1 ++ e2) = runEv parse (runEv parse s e1) e2 :=
  List.foldl_append _ _ _ _

theorem handleTick_fields {J : Type} (s : AjaxSt J) (buf : Str) :
    (handleTick s buf).settled = s.settled
    ∧ (handleTick s buf).responseJSON = s.responseJSON
    ∧ (handleTick s buf).responseComet = s.responseComet
    ∧ (handleTick s buf).timerStarted = s.timerStarted
    ∧ (handleTick s buf).timerActive = s.timerActive
    ∧ (handleTick s buf).faulted = s.faulted := by
  rw [handleTick]
  split <;> simp

theorem handleTick_inactive {J : Type} (s : AjaxSt J) (buf : Str)
    (h : s.timerActive = false) : handleTick s buf = s := by
  rw [handleTick, if_neg]
  simp [h]

theorem handleDone_settled_some {J : Type} (parse : Str → Except Unit J)
    (s : AjaxSt J) (r : Resp) (o : Settled J) (h : s.settled = some o) :
    (handleDone parse s r).settled = some o := by
  have hs : s.settled.isSome = true := by simp [h]
  rcases hp : parse r.responseText with e | j <;>
    by_cases hok : 200 ≤ r.status ∧ r.status ≤ 299 <;>
    by_cases hct : r.contentType = some ctJson <;>
    by_cases hts : s.timerStarted = true <;>
    simp [handleDone, settleResolve, settleReject, hok, hct, hts, hp, hs, h]

theorem stepEv_settled_mono {J : Type} (parse : Str → Except Unit J)
    (s : AjaxSt J) (e : Ev) (o : Settled J) (h : s.settled = some o) :
    (stepEv parse s e).settled = some o := by
  cases e with
  | tick buf =>
    rw [show stepEv parse s (Ev.tick buf) = handleTick s buf from rfl]
    rw [(handleTick_fields s buf).1]
    exact h
  | rsc rs r =>
    rw [show stepEv parse s (Ev.rsc rs r) =
      if rs = 4 then handleDone parse s r else s from rfl]
    split
    · exact handleDone_settled_some parse s r o h
    · exact h

theorem runEv_settled_mono {J : Type} (parse : Str → Except Unit J)
    (evs : List Ev) :
    ∀ (s : AjaxSt J) (o : Settled J), s.settled = some o →
      (runEv parse s evs).settled = some o := by
  induction evs with
  | nil => intro s o h; exact h
  | cons e evs' ih =>
    intro s o h
    exact ih (stepEv parse s e) o (stepEv_settled_mono parse s e o h)

theorem stepEv_noDone_fields {J : Type} (parse : Str → Except Unit J)
    (s : AjaxSt J) (e : Ev) (h : isDoneEv e = false) :
    (stepEv parse s e).settled = s.settled
    ∧ (stepEv parse s e).responseJSON = s.responseJSON
    ∧ (stepEv parse s e).responseComet = s.responseComet
    ∧ (stepEv parse s e).timerStarted = s.timerStarted
    ∧ (stepEv parse s e).timerActive = s.timerActive
    ∧ (stepEv parse s e).faulted = s.faulted := by
  cases e with
  | tick buf => exact handleTick_fields s buf
  | rsc rs r =>
    have h4 : ¬ rs = 4 := by simpa [isDoneEv] using h
    rw [show stepEv parse s (Ev.rsc rs r) =
      if rs = 4 then handleDone parse s r else s from rfl, if_neg h4]
    exact ⟨rfl, rfl, rfl, rfl, rfl, rfl⟩

theorem runEv_noDone_fields {J : Type} (parse : Str → Except Unit J)
    (evs : List Ev) :
    ∀ s : AjaxSt J, NoDone evs = true →
      (runEv parse s evs).settled = s.settled
      ∧ (runEv parse s evs).responseJSON = s.responseJSON
      ∧ (runEv parse s evs).responseComet = s.responseComet
      ∧ (runEv parse s evs).timerStarted = s.timerStarted
      ∧ (runEv parse s evs).timerActive = s.timerActive
      ∧ (runEv parse s evs).faulted = s.faulted := by
  induction evs with
  | nil => intro s _; exact ⟨rfl, rfl, rfl, rfl, rfl, rfl⟩
  | cons e evs' ih =>
    intro s hnd
    have h1 : isDoneEv e = false ∧ NoDone evs' = true := by
      simpa [NoDone, Bool.and_eq_true] using hnd
    obtain ⟨hstep1, hstep2, hstep3, hstep4, hstep5, hstep6⟩ :=
      stepEv_noDone_fields parse s e h1.1
    obtain ⟨hr1, hr2, hr3, hr4, hr5, hr6⟩ := ih (stepEv parse s e) h1.2
    exact ⟨hr1.trans hstep1, hr2.trans hstep2, hr3.trans hstep3,
      hr4.trans hstep4, hr5.trans hstep5, hr6.trans hstep6⟩

theorem stepEv_inert {J : Type} (parse : Str → Except Unit J) (s : AjaxSt J)
    (e : Ev) (hact : s.timerActive = false) (h : isDoneEv e = false) :
    stepEv parse s e = s := by
  cases e with
  | tick buf => exact handleTick_inactive s buf hact
  | rsc rs r =>
    have h4 : ¬ rs = 4 := by simpa [isDoneEv] using h
    rw [show stepEv parse s (Ev.rsc rs r) =
      if rs = 4 then handleDone parse s r else s from rfl, if_neg h4]

theorem runEv_inert {J : Type} (parse : Str → Except Unit J) (evs : List Ev) :
    ∀ s : AjaxSt J, s.timerActive = false → NoDone evs = true →
      runEv parse s evs = s := by
  induction evs with
  | nil => intro s _ _; rfl
  | cons e evs' ih =>
    intro s hact hnd
    have h1 : isDoneEv e = false ∧ NoDone evs' = true := by
      simpa [NoDone, Bool.and_eq_true] using hnd
    rw [show runEv parse s (e :: evs') =
      runEv parse (stepEv parse s e) evs' from rfl]
    rw [stepEv_inert parse s e hact h1.1]
    exact ih s hact h1.2

theorem handleDone_reject {J : Type} (parse : Str → Except Unit J)
    (s : AjaxSt J) (r : Resp) (hs : s.settled = none)
    (hstat : ¬ (200 ≤ r.status ∧ r.status ≤ 299)) :
    (handleDone parse s r).settled = some (Settled.rejected r.statusText) := by
  by_cases hts : s.timerStarted = true <;>
    simp [handleDone, settleReject, hstat, hts, hs]

theorem handleDone_resolve_json {J : Type} (parse : Str → Except Unit J)
    (s : AjaxSt J) (r : Resp) (j : J) (hs : s.settled = none)
    (hok : 200 ≤ r.status ∧ r.status ≤ 299) (hct : r.contentType = some ctJson)
    (hp : parse r.responseText = Except.ok j) :
    (handleDone parse s r).settled = some (Settled.resolved
      { status := r.status, statusText := r.statusText,
        contentType := r.contentType, responseText := r.responseText,
        responseJSON := some j,
        responseComet := if s.timerStarted = true then
          some (r.responseText.drop s.cometLength) else s.responseComet }) := by
  by_cases hts : s.timerStarted = true <;>
    simp [handleDone, settleResolve, hok, hct, hts, hp, hs]

theorem handleDone_resolve_nonjson {J : Type} (parse : Str → Except Unit J)
    (s : AjaxSt J) (r : Resp) (hs : s.settled = none)
    (hok : 200 ≤ r.status ∧ r.status ≤ 299)
    (hct : ¬ r.contentType = some ctJson) :
    (handleDone parse s r).settled = some (Settled.resolved
      { status := r.status, statusText := r.statusText,
        contentType := r.contentType, responseText := r.responseText,
        responseJSON := s.responseJSON,
        responseComet := if s.timerStarted = true then
          some (r.responseText.drop s.cometLength) else s.responseComet }) := by
  by_cases hts : s.timerStarted = true <;>
    simp [handleDone, settleResolve, hok, hct, hts, hs]

theorem handleDone_fault {J : Type} (parse : Str → Except Unit J)
    (s : AjaxSt J) (r : Resp) (e : Unit)
    (hok : 200 ≤ r.status ∧ r.status ≤ 299) (hct : r.contentType = some ctJson)
    (hp : parse r.responseText = Except.error e) :
    (handleDone parse s r).settled = s.settled
    ∧ (handleDone parse s r).faulted = true
    ∧ (handleDone parse s r).timerActive =
        (if s.timerStarted = true then false else s.timerActive)
    ∧ (handleDone parse s r).emitted = s.emitted := by
  by_cases hts : s.timerStarted = true <;>
    simp [handleDone, hok, hct, hts, hp]

theorem handleDone_started_flushes {J : Type} (parse : Str → Except Unit J)
    (s : AjaxSt J) (r : Resp) (hts : s.timerStarted = true) :
    (handleDone parse s r).responseComet =
        some (r.responseText.drop s.cometLength)
    ∧ (handleDone parse s r).emitted = s.emitted
    ∧ (handleDone parse s r).timerActive = false := by
  rcases hp : parse r.responseText with e | j <;>
    by_cases hok : 200 ≤ r.status ∧ r.status ≤ 299 <;>
    by_cases hct : r.contentType = some ctJson <;>
    by_cases hs : s.settled.isSome = true <;>
    simp [handleDone, settleResolve, settleReject, hok, hct, hts, hp, hs]

theorem handleDone_timer {J : Type} (parse : Str → Except Unit J)
    (s : AjaxSt J) (r : Resp) :
    (handleDone parse s r).timerStarted = s.timerStarted
    ∧ (handleDone parse s r).timerActive =
        (if s.timerStarted = true then false else s.timerActive) := by
  rcases hp : parse r.responseText with e | j <;>
    by_cases hok : 200 ≤ r.status ∧ r.status ≤ 299 <;>
    by_cases hct : r.contentType = some ctJson <;>
    by_cases hts : s.timerStarted = true <;>
    by_cases hs : s.settled.isSome = true <;>
    simp [handleDone, settleResolve, settleReject, hok, hct, hts, hp, hs]

theorem handleDone_settles {J : Type} (parse : Str → Except Unit J)
    (s : AjaxSt J) (r : Resp)
    (hno : ¬ (200 ≤ r.status ∧ r.status ≤ 299) ∨ ¬ r.contentType = some ctJson
      ∨ ∃ j, parse r.responseText = Except.ok j) :
    ((handleDone parse s r).settled).isSome = true := by
  cases hs : s.settled with
  | some o => rw [handleDone_settled_some parse s r o hs]; rfl
  | none =>
    by_cases hok : 200 ≤ r.status ∧ r.status ≤ 299
    · by_cases hct : r.contentType = some ctJson
      · rcases hp : parse r.responseText with e | j
        · rcases hno with h | h | ⟨j, hj⟩
          · exact absurd hok h
          · exact absurd hct h
          · rw [hp] at hj; cases hj
        · rw [handleDone_resolve_json parse s r j hs hok hct hp]; rfl
      · rw [handleDone_resolve_nonjson parse s r hs hok hct]; rfl
    · rw [handleDone_reject parse s r hs hok]; rfl

/-- Timer invariant: a scheduled interval implies an assigned interval id, and
a settled promise implies the interval is no longer scheduled. -/
def GoodSt {J : Type} (s : AjaxSt J) : Prop :=
  (s.timerActive = true → s.timerStarted = true)
  ∧ (s.settled.isSome = true → s.timerActive = false)

theorem stepEv_good {J : Type} (parse : Str → Except Unit J) (s : AjaxSt J)
    (e : Ev) (h : GoodSt s) : GoodSt (stepEv parse s e) := by
  cases e with
  | tick buf =>
    obtain ⟨f1, f2, f3, f4, f5, f6⟩ := handleTick_fields s buf
    constructor
    · intro ha
      rw [show stepEv parse s (Ev.tick buf) = handleTick s buf from rfl] at ha ⊢
      rw [f4]; exact h.1 (f5 ▸ ha)
    · intro hsickle
      rw [show stepEv parse s (Ev.tick buf) = handleTick s buf from rfl] at hsickle ⊢
      rw [f5]; exact h.2 (f1 ▸ hsickle)
  | rsc rs r =>
    by_cases h4 : rs = 4
    · subst h4
      rw [show stepEv parse s (Ev.rsc 4 r) = handleDone parse s r from rfl]
      obtain ⟨ht1, ht2⟩ := handleDone_timer parse s r
      have hact : (handleDone parse s r).timerActive = false := by
        rw [ht2]
        by_cases hts : s.timerStarted = true
        · simp [hts]
        · have : s.timerActive = false := by
            cases hav : s.timerActive
            · rfl
            · exact absurd (h.1 hav) hts
          simp [hts, this]
      exact ⟨fun ha => absurd (hact ▸ ha) (by simp), fun _ => hact⟩
    · rw [show stepEv parse s (Ev.rsc rs r) =
        if rs = 4 then handleDone parse s r else s from rfl, if_neg h4]
      exact h

theorem runEv_good {J : Type} (parse : Str → Except Unit J) (evs : List Ev) :
    ∀ s : AjaxSt J, GoodSt s → GoodSt (runEv parse s evs) := by
  induction evs with
  | nil => intro s h; exact h
  | cons e evs' ih => intro s h; exact ih _ (stepEv_good parse s e h)

theorem handleDone_responseComet {J : Type} (parse : Str → Except Unit J)
    (s : AjaxSt J) (r : Resp) :
    (handleDone parse s r).responseComet =
      (if s.timerStarted = true then some (r.responseText.drop s.cometLength)
       else s.responseComet) := by
  rcases hp : parse r.responseText with e | j <;>
    by_cases hok : 200 ≤ r.status ∧ r.status ≤ 299 <;>
    by_cases hct : r.contentType = some ctJson <;>
    by_cases hts : s.timerStarted = true <;>
    by_cases hs : s.settled.isSome = true <;>
    simp [handleDone, settleResolve, settleReject, hok, hct, hts, hp, hs]

theorem initAjax_good (J : Type) (ce : Bool) : GoodSt (initAjax J ce) :=
  ⟨fun h => h, fun h => by simp [initAjax] at h⟩

/-- C2: per invocation, the promise settles with at most one terminal outcome
— once settled its outcome never changes, so `resolve` and `reject` cannot
both take effect and no second settlement can occur — it does settle when the
terminal notification arrives (unless the uncaught JSON-parse fault of C9
fires), and whenever it is settled the polling interval has already been
cleared, so a later tick leaves the state untouched: no tick fires after
settlement. -/
theorem ajax_settles_once {J : Type} (parse : Str → Except Unit J) (ce : Bool)
    (evs evs' pre post : List Ev) (o : Settled J) (r : Resp) (buf : Str) :
    ((runEv parse (initAjax J ce) evs).settled = some o →
        (runEv parse (initAjax J ce) (evs ++ evs')).settled = some o)
    ∧ ((runEv parse (initAjax J ce) evs).settled.isSome = true →
        (runEv parse (initAjax J ce) evs).timerActive = false
        ∧ handleTick (runEv parse (initAjax J ce) evs) buf =
            runEv parse (initAjax J ce) evs)
    ∧ ((¬ (200 ≤ r.status ∧ r.status ≤ 299) ∨ ¬ r.contentType = some ctJson
          ∨ ∃ j, parse r.responseText = Except.ok j) →
        ((runEv parse (initAjax J ce)
            (pre ++ Ev.rsc 4 r :: post)).settled).isSome = true) := by
  refine ⟨?_, ?_, ?_⟩
  · intro h
    rw [runEv_append]
    exact runEv_settled_mono parse evs' _ o h
  · intro hsome
    have hg : GoodSt (runEv parse (initAjax J ce) evs) :=
      runEv_good parse evs _ (initAjax_good J ce)
    have hact := hg.2 hsome
    exact ⟨hact, handleTick_inactive _ buf hact⟩
  · intro hno
    rw [show pre ++ Ev.rsc 4 r :: post = (pre ++ [Ev.rsc 4 r]) ++ post by simp]
    rw [runEv_append, runEv_append]
    have hdone : ((runEv parse (runEv parse (initAjax J ce) pre)
        [Ev.rsc 4 r]).settled).isSome = true := by
      rw [show runEv parse (runEv parse (initAjax J ce) pre) [Ev.rsc 4 r] =
        handleDone parse (runEv parse (initAjax J ce) pre) r from rfl]
      exact handleDone_settles parse _ r hno
    obtain ⟨o', ho'⟩ := Option.isSome_iff_exists.mp hdone
    rw [runEv_settled_mono parse post _ o' ho']
    rfl

/-- Concrete fixtures for the event-trace witnesses (`J` is `Nat`). -/
def parseW : Str → Except Unit Nat := fun _ => Except.ok 0

def parseErrW : Str → Except Unit Nat := fun _ => Except.error ()

def respOkW : Resp :=
  { status := 200, statusText := ("OK").toList, contentType := none,
    responseText := ("hello").toList }

def settledW : Settled Nat :=
  Settled.resolved
    { status := 200, statusText := ("OK").toList, contentType := none,
      responseText := ("hello").toList, responseJSON := none,
      responseComet := some (("hello").toList) }

theorem ajax_settles_once_witness :
    ((runEv parseW (initAjax Nat true) [Ev.rsc 4 respOkW]).settled =
        some settledW)
    ∧ (runEv parseW (initAjax Nat true)
        ([Ev.rsc 4 respOkW] ++ [Ev.tick (("x").toList)])).settled =
        some settledW
    ∧ (runEv parseW (initAjax Nat true) [Ev.rsc 4 respOkW]).timerActive = false
    ∧ handleTick (runEv parseW (initAjax Nat true) [Ev.rsc 4 respOkW])
        (("x").toList) = runEv parseW (initAjax Nat true) [Ev.rsc 4 respOkW]
    ∧ ((runEv parseW (initAjax Nat true)
        ([] ++ Ev.rsc 4 respOkW :: [])).settled).isSome = true := by
  have h := ajax_settles_once parseW true [Ev.rsc 4 respOkW]
    [Ev.tick (("x").toList)] [] [] settledW respOkW (("x").toList)
  exact ⟨by decide, h.1 (by decide), (h.2.1 (by decide)).1,
    (h.2.1 (by decide)).2, h.2.2 (Or.inr (Or.inl (by decide)))⟩

/-- C3: when the transaction completes while comet mode was active, the
completed object's `responseComet` equals the response text from the last
flushed offset on, and no comet callback invocation occurs from that point. -/
theorem comet_tail_final {J : Type} (parse : Str → Except Unit J)
    (pre post : List Ev) (r : Resp)
    (hpre : NoDone pre = true) (hpost : NoDone post = true) :
    (runEv parse (initAjax J true) (pre ++ Ev.rsc 4 r :: post)).responseComet =
        some (r.responseText.drop
          ((runEv parse (initAjax J true) pre).cometLength))
    ∧ (runEv parse (initAjax J true) (pre ++ Ev.rsc 4 r :: post)).emitted =
        (runEv parse (initAjax J true) pre).emitted := by
  rw [show pre ++ Ev.rsc 4 r :: post = (pre ++ [Ev.rsc 4 r]) ++ post by simp]
  rw [runEv_append, runEv_append]
  have hts : (runEv parse (initAjax J true) pre).timerStarted = true :=
    (runEv_noDone_fields parse pre (initAjax J true) hpre).2.2.2.1
  obtain ⟨f1, f2, f3⟩ :=
    handleDone_started_flushes parse (runEv parse (initAjax J true) pre) r hts
  rw [show runEv parse (runEv parse (initAjax J true) pre) [Ev.rsc 4 r] =
    handleDone parse (runEv parse (initAjax J true) pre) r from rfl]
  rw [runEv_inert parse post _ f3 hpost]
  exact ⟨f1, f2⟩

def preW : List Ev := [Ev.tick (("ab\ncd").toList)]

def postW : List Ev := [Ev.tick (("zz").toList)]

def respCometW : Resp :=
  { status := 200, statusText := ("OK").toList, contentType := none,
    responseText := ("ab\ncd\nef").toList }

theorem comet_tail_final_witness :
    (NoDone preW = true) ∧ (NoDone postW = true)
    ∧ ((runEv parseW (initAjax Nat true)
          (preW ++ Ev.rsc 4 respCometW :: postW)).responseComet =
        some (respCometW.responseText.drop
          ((runEv parseW (initAjax Nat true) preW).cometLength))
      ∧ (runEv parseW (initAjax Nat true)
          (preW ++ Ev.rsc 4 respCometW :: postW)).emitted =
        (runEv parseW (initAjax Nat true) preW).emitted)
    ∧ (runEv parseW (initAjax Nat true)
        (preW ++ Ev.rsc 4 respCometW :: postW)).responseComet =
        some (("\nef").toList)
    ∧ (runEv parseW (initAjax Nat true)
        (preW ++ Ev.rsc 4 respCometW :: postW)).emitted = [("ab").toList] :=
  ⟨by decide, by decide,
    comet_tail_final parseW preW postW respCometW (by decide) (by decide),
    by decide, by decide⟩

/-- C4: a terminal status outside 200–299 settles the promise as rejected
with an error whose message is the response's status text, whatever the
response body contains. -/
theorem reject_with_status_text {J : Type} (parse : Str → Except Unit J)
    (ce : Bool) (pre : List Ev) (r : Resp)
    (hpre : NoDone pre = true)
    (hstat : ¬ (200 ≤ r.status ∧ r.status ≤ 299)) :
    (runEv parse (initAjax J ce) (pre ++ [Ev.rsc 4 r])).settled =
      some (Settled.rejected r.statusText) := by
  rw [runEv_append]
  have hs : (runEv parse (initAjax J ce) pre).settled = none :=
    (runEv_noDone_fields parse pre (initAjax J ce) hpre).1
  rw [show runEv parse (runEv parse (initAjax J ce) pre) [Ev.rsc 4 r] =
    handleDone parse (runEv parse (initAjax J ce) pre) r from rfl]
  exact handleDone_reject parse _ r hs hstat

def respBadW : Resp :=
  { status := 404, statusText := ("Not Found").toList, contentType := none,
    responseText := ("body text is ignored").toList }

theorem reject_with_status_text_witness :
    (NoDone ([] : List Ev) = true)
    ∧ (¬ (200 ≤ respBadW.status ∧ respBadW.status ≤ 299))
    ∧ (runEv parseW (initAjax Nat false) ([] ++ [Ev.rsc 4 respBadW])).settled =
        some (Settled.rejected respBadW.statusText) :=
  ⟨by decide, by decide,
    reject_with_status_text parseW false [] respBadW (by decide) (by decide)⟩

/-- C5: on a successful status, if the response `Content-Type` is exactly
`application/json` the resolved request object carries `responseJSON` equal
to the JSON parse of the body; for any other content type no `responseJSON`
is attached (it remains absent). -/
theorem resolve_json_field {J : Type} (parse : Str → Except Unit J)
    (ce : Bool) (pre : List Ev) (r : Resp) (j : J)
    (hpre : NoDone pre = true)
    (hok : 200 ≤ r.status ∧ r.status ≤ 299) :
    (r.contentType = some ctJson → parse r.responseText = Except.ok j →
      (runEv parse (initAjax J ce) (pre ++ [Ev.rsc 4 r])).settled =
        some (Settled.resolved
          { status := r.status, statusText := r.statusText,
            contentType := r.contentType, responseText := r.responseText,
            responseJSON := some j,
            responseComet := (runEv parse (initAjax J ce)
                (pre ++ [Ev.rsc 4 r])).responseComet }))
    ∧ (¬ r.contentType = some ctJson →
      (runEv parse (initAjax J ce) (pre ++ [Ev.rsc 4 r])).settled =
        some (Settled.resolved
          { status := r.status, statusText := r.statusText,
            contentType := r.contentType, responseText := r.responseText,
            responseJSON := none,
            responseComet := (runEv parse (initAjax J ce)
                (pre ++ [Ev.rsc 4 r])).responseComet })) := by
  have hs : (runEv parse (initAjax J ce) pre).settled = none :=
    (runEv_noDone_fields parse pre (initAjax J ce) hpre).1
  have hj : (runEv parse (initAjax J ce) pre).responseJSON = none :=
    (runEv_noDone_fields parse pre (initAjax J ce) hpre).2.1
  have hone : runEv parse (runEv parse (initAjax J ce) pre) [Ev.rsc 4 r] =
      handleDone parse (runEv parse (initAjax J ce) pre) r := rfl
  constructor
  · intro hct hp
    rw [runEv_append, hone, handleDone_responseComet parse _ r]
    exact handleDone_resolve_json parse _ r j hs hok hct hp
  · intro hct
    rw [runEv_append, hone, handleDone_responseComet parse _ r]
    rw [← hj]
    exact handleDone_resolve_nonjson parse _ r hs hok hct

def respJsonW : Resp :=
  { status := 200, statusText := ("OK").toList, contentType := some ctJson,
    responseText := ("42").toList }

theorem resolve_json_field_witness :
    (runEv parseW (initAjax Nat false) ([] ++ [Ev.rsc 4 respJsonW])).settled =
      some (Settled.resolved
        { status := 200, statusText := ("OK").toList,
          contentType := some ctJson, responseText := ("42").toList,
          responseJSON := some 0, responseComet := none })
    ∧ (runEv parseW (initAjax Nat false) ([] ++ [Ev.rsc 4 respOkW])).settled =
      some (Settled.resolved
        { status := 200, statusText := ("OK").toList, contentType := none,
          responseText := ("hello").toList, responseJSON := none,
          responseComet := none }) := by
  constructor
  · have h := (resolve_json_field parseW false [] respJsonW 0 (by decide)
      (by decide)).1 (by decide) rfl
    exact h.trans (by decide)
  · have h := (resolve_json_field parseW false [] respOkW 0 (by decide)
      (by decide)).2 (by decide)
    exact h.trans (by decide)

/-- C9: on a successful status with declared `application/json` content type
but an unparsable body, the parse failure aborts the handler uncaught: the
invocation is marked faulted and the promise neither resolves nor rejects. -/
theorem json_fault_no_settle {J : Type} (parse : Str → Except Unit J)
    (ce : Bool) (pre post : List Ev) (r : Resp)
    (hpre : NoDone pre = true) (hpost : NoDone post = true)
    (hok : 200 ≤ r.status ∧ r.status ≤ 299)
    (hct : r.contentType = some ctJson)
    (hp : parse r.responseText = Except.error ()) :
    (runEv parse (initAjax J ce) (pre ++ Ev.rsc 4 r :: post)).settled = none
    ∧ (runEv parse (initAjax J ce) (pre ++ Ev.rsc 4 r :: post)).faulted =
        true := by
  rw [show pre ++ Ev.rsc 4 r :: post = (pre ++ [Ev.rsc 4 r]) ++ post by simp]
  rw [runEv_append, runEv_append]
  obtain ⟨g1, g2, g3, g4, g5, g6⟩ :=
    runEv_noDone_fields parse pre (initAjax J ce) hpre
  obtain ⟨hf1, hf2, hf3, hf4⟩ :=
    handleDone_fault parse (runEv parse (initAjax J ce) pre) r () hok hct hp
  have hone : runEv parse (runEv parse (initAjax J ce) pre) [Ev.rsc 4 r] =
      handleDone parse (runEv parse (initAjax J ce) pre) r := rfl
  have hact : (handleDone parse (runEv parse (initAjax J ce) pre) r).timerActive
      = false := by
    rw [hf3, g4, g5]
    cases ce <;> simp [initAjax]
  rw [hone, runEv_inert parse post _ hact hpost]
  refine ⟨?_, hf2⟩
  rw [hf1, g1]
  rfl

theorem json_fault_no_settle_witness :
    (NoDone ([] : List Ev) = true)
    ∧ (200 ≤ respJsonW.status ∧ respJsonW.status ≤ 299)
    ∧ respJsonW.contentType = some ctJson
    ∧ parseErrW respJsonW.responseText = Except.error ()
    ∧ ((runEv parseErrW (initAjax Nat true)
          ([] ++ Ev.rsc 4 respJsonW :: [])).settled = none
      ∧ (runEv parseErrW (initAjax Nat true)
          ([] ++ Ev.rsc 4 respJsonW :: [])).faulted = true) :=
  ⟨by decide, by decide, by decide, rfl,
    json_fault_no_settle parseErrW true [] [] respJsonW (by decide) (by decide)
      (by decide) (by decide) rfl⟩

/-- Primitive JS values appearing in request bodies. -/
inductive JSPrim where
  | pstr (s : Str)
  | pnum (n : Nat)
  deriving DecidableEq

/-- Default string coercion used by the template literal in the URL-encoding
branch. -/
def primToStr : JSPrim → Str
  | JSPrim.pstr s => s
  | JSPrim.pnum n => (toString n).toList

/-- The request body: a plain object (own enumerable entries in order), a
`FormData` instance, a string, or absent (`undefined`). -/
inductive JSData where
  | dObj (es : List (Str × JSPrim))
  | dForm
  | dStr (s : Str)
  | dAbsent
  deriving DecidableEq

/-- `typeof data == 'object'` (true for plain objects and `FormData`). -/
def isObjType : JSData → Bool
  | JSData.dObj _ => true
  | JSData.dForm => true
  | _ => false

/-- `data instanceof FormData`. -/
def isFormData : JSData → Bool
  | JSData.dForm => true
  | _ => false

/-- `Object.entries(data)` for the data values of the model. -/
def entriesOf : JSData → List (Str × JSPrim)
  | JSData.dObj es => es
  | _ => []

/-- Uppercase hexadecimal digit. -/
def hexUp (n : Nat) : Char :=
  if n < 10 then Char.ofNat (48 + n) else Char.ofNat (55 + n)

/-- Lowercase hexadecimal digit. -/
def hexLow (n : Nat) : Char :=
  if n < 10 then Char.ofNat (48 + n) else Char.ofNat (87 + n)

/-- UTF-8 bytes of a scalar value. -/
def utf8Bytes (c : Char) : List Nat :=
  let n := c.toNat
  if n < 128 then [n]
  else if n < 2048 then [192 + n / 64, 128 + n % 64]
  else if n < 65536 then [224 + n / 4096, 128 + (n / 64) % 64, 128 + n % 64]
  else [240 + n / 262144, 128 + (n / 4096) % 64, 128 + (n / 64) % 64,
    128 + n % 64]

/-- `%XX` escape of one byte, uppercase hex as produced by
`encodeURIComponent`. -/
def percentByte (b : Nat) : Str :=
  ['%', hexUp (b / 16), hexUp (b % 16)]

/-- Characters `encodeURIComponent` leaves unescaped:
`A–Z a–z 0–9 - _ . ! ~ * ' ( )`. -/
def isUnreservedURI (c : Char) : Bool :=
  c.isAlpha || c.isDigit || c = '-' || c = '_' || c = '.' || c = '!' ||
    c = '~' || c = '*' || c = Char.ofNat 39 || c = '(' || c = ')'

/-- `encodeURIComponent`: percent-encode the UTF-8 bytes of every reserved
character. -/
def encodeURIComponent (s : Str) : Str :=
  s.foldr (fun c acc =>
    (if isUnreservedURI c then [c]
     else (utf8Bytes c).foldr (fun b a2 => percentByte b ++ a2) []) ++ acc) []

example : encodeURIComponent (("a b").toList) = ("a%20b").toList := by decide
example : encodeURIComponent (("x-y_z.2").toList) = ("x-y_z.2").toList := by
  decide

/-- JSON escape of one character, as produced by `JSON.stringify`. -/
def jsonEscChar (c : Char) : Str :=
  if c = '"' then ['\\', '"']
  else if c = '\\' then ['\\', '\\']
  else if c = '\n' then ['\\', 'n']
  else if c = '\r' then ['\\', 'r']
  else if c = '\t' then ['\\', 't']
  else if c = Char.ofNat 8 then ['\\', 'b']
  else if c = Char.ofNat 12 then ['\\', 'f']
  else if c.toNat < 32 then
    ['\\', 'u', '0', '0', hexLow (c.toNat / 16), hexLow (c.toNat % 16)]
  else [c]

/-- JSON string literal with quotes and escapes. -/
def jsonQuote (s : Str) : Str :=
  '"' :: s.foldr (fun c acc => jsonEscChar c ++ acc) ['"']

/-- JSON rendering of a primitive value. -/
def jsonPrimStr : JSPrim → Str
  | JSPrim.pstr s => jsonQuote s
  | JSPrim.pnum n => (toString n).toList

/-- `JSON.stringify` of a flat object of primitives. -/
def jsonStringifyObj (es : List (Str × JSPrim)) : Str :=
  Char.ofNat 123 ::
    (List.intercalate [',']
      (es.map (fun kv => jsonQuote kv.1 ++ ':' :: jsonPrimStr kv.2)))
    ++ [Char.ofNat 125]

/-- `JSON.stringify` on the body values of the model; a `FormData` instance
has no own enumerable properties and no `toJSON`, so it serializes as the
empty object. -/
def jsonStringifyData : JSData → Str
  | JSData.dObj es => jsonStringifyObj es
  | JSData.dForm => jsonStringifyObj []
  | JSData.dStr s => jsonQuote s
  | JSData.dAbsent => []

example : jsonStringifyObj
    [(("foo").toList, JSPrim.pstr (("a b").toList)),
     (("bar").toList, JSPrim.pnum 2)] =
    Char.ofNat 123 :: ("\"foo\":\"a b\",\"bar\":2").toList
      ++ [Char.ofNat 125] := by decide

/-- `Object.entries(data).map(([k, v]) => enc(k) + '=' + enc(v)).join('&')`. -/
def urlEncodeEntries (es : List (Str × JSPrim)) : Str :=
  List.intercalate ['&']
    (es.map (fun kv =>
      encodeURIComponent kv.1 ++ '=' :: encodeURIComponent (primToStr kv.2)))

example : urlEncodeEntries
    [(("foo").toList, JSPrim.pstr (("a b").toList)),
     (("bar").toList, JSPrim.pnum 2)] = ("foo=a%20b&bar=2").toList := by decide

/-- Body serialization policy (source lines 86–98): a body of object type is
JSON-stringified when the active `Content-Type` header is exactly
`application/json`; otherwise an object body that is not `FormData` is
URL-encoded; anything else passes through. -/
def serializeData (act : Option Str) (d : JSData) : JSData :=
  if isObjType d = true ∧ act = some ctJson then
    JSData.dStr (jsonStringifyData d)
  else if isObjType d = true ∧ isFormData d = false then
    JSData.dStr (urlEncodeEntries (entriesOf d))
  else d

/-- The argument finally passed to `xhr.send(options.data || null)`:
a falsy body (absent, or the empty string) sends `null`. -/
inductive Payload where
  | pNull
  | pStr (s : Str)
  | pForm
  | pObj (es : List (Str × JSPrim))
  deriving DecidableEq

def sendPayload : JSData → Payload
  | JSData.dStr [] => Payload.pNull
  | JSData.dStr (c :: cs) => Payload.pStr (c :: cs)
  | JSData.dForm => Payload.pForm
  | JSData.dObj es => Payload.pObj es
  | JSData.dAbsent => Payload.pNull

/-- JS object property assignment `obj[k] = v`: an existing key keeps its
position, a new key is appended (JS property enumeration order). -/
def setProp (es : List (Str × Str)) (k v : Str) : List (Str × Str) :=
  match es with
  | [] => [(k, v)]
  | (k', v') :: t => if k' = k then (k, v) :: t else (k', v') :: setProp t k v

/-- JS object property lookup `obj[k]`. -/
def getProp (es : List (Str × Str)) (k : Str) : Option Str :=
  match es with
  | [] => none
  | (k', v') :: t => if k' = k then some v' else getProp t k

/-- Store of header objects; a descriptor refers to its headers object by
index, so in-place mutation through an alias is observable. -/
abbrev HStore := List (List (Str × Str))

def ctKey : Str := ("Content-Type").toList

/-- A structured request descriptor (the string form is normalized to
`{ url }` before this point, leaving the caller's string untouched). -/
structure OptionsObj where
  method : Option Str
  url : Str
  data : JSData
  headersRef : Option Nat
  contentType : Option Str
  asyncOpt : Option Bool
  user : Option Str
  password : Option Str
  cometEnabled : Bool
  deriving DecidableEq

/-- Arguments of `xhr.open(...)` (source lines 64–70). -/
structure OpenArgs where
  method : Str
  url : Str
  async : Bool
  user : Option Str
  password : Option Str
  deriving DecidableEq

/-- JS `x || d` for an optional string `x`: a missing or empty string is
falsy. -/
def jsOrStr (x : Option Str) (d : Str) : Str :=
  match x with
  | some (c :: cs) => c :: cs
  | _ => d

/-- JS `x || d` for an optional boolean `x`: only `true` is truthy. -/
def jsOrB (x : Option Bool) (d : Bool) : Bool :=
  match x with
  | some true => true
  | _ => d

/-- JS `x || null` for an optional string `x`. -/
def jsOrNull (x : Option Str) : Option Str :=
  match x with
  | some (c :: cs) => some (c :: cs)
  | _ => none

def toUpperStr (s : Str) : Str := s.map Char.toUpper

/-- Header preparation (source lines 75–78): assign a fresh headers object
when none was supplied, then overwrite its `Content-Type` entry when a truthy
`contentType` shorthand is given. Returns the updated store and descriptor. -/
def normalizeHeaders (store : HStore) (o : OptionsObj) : HStore × OptionsObj :=
  let p :=
    match o.headersRef with
    | none => (store ++ [[]], { o with headersRef := some store.length })
    | some _ => (store, o)
  let r := p.2.headersRef.getD 0
  let store2 :=
    match p.2.contentType with
    | some (c :: cs) => p.1.set r (setProp (p.1.getD r []) ctKey (c :: cs))
    | _ => p.1
  (store2, p.2)

/-- The header value read back by `options.headers['Content-Type']` after the
shorthand was applied. -/
def activeCT (store : HStore) (o : OptionsObj) : Option Str :=
  let p := normalizeHeaders store o
  getProp (p.1.getD (p.2.headersRef.getD 0) []) ctKey

/-- Result of the synchronous prologue of `ajax`: the header store and
descriptor after their in-place mutations, the `xhr.open` arguments, and the
payload handed to `xhr.send`. -/
structure Prepared where
  store : HStore
  opts : OptionsObj
  openArgs : OpenArgs
  payload : Payload
  deriving DecidableEq

/-- The synchronous prologue of `ajax` for a structured descriptor:
compute the `open` arguments, prepare headers, serialize the body into the
descriptor's `data` field, and form the `send` payload. -/
def ajaxPrepare (store : HStore) (o : OptionsObj) : Prepared :=
  let oa : OpenArgs :=
    { method := toUpperStr (jsOrStr o.method (("GET").toList)),
      url := o.url,
      async := jsOrB o.asyncOpt true,
      user := jsOrNull o.user,
      password := jsOrNull o.password }
  let p := normalizeHeaders store o
  let ct := getProp (p.1.getD (p.2.headersRef.getD 0) []) ctKey
  let o2 := { p.2 with data := serializeData ct p.2.data }
  { store := p.1, opts := o2, openArgs := oa, payload := sendPayload o2.data }

theorem normalizeHeaders_data (store : HStore) (o : OptionsObj) :
    (normalizeHeaders store o).2.data = o.data := by
  rcases hr : o.headersRef with _ | r <;>
    rcases hct : o.contentType with _ | ⟨_ | ⟨c, cs⟩⟩ <;>
    simp [normalizeHeaders, hr, hct]

theorem normalizeHeaders_ref (store : HStore) (o : OptionsObj) :
    (normalizeHeaders store o).2.headersRef =
      (match o.headersRef with
       | none => some store.length
       | some r => some r) := by
  rcases hr : o.headersRef with _ | r <;>
    rcases hct : o.contentType with _ | ⟨_ | ⟨c, cs⟩⟩ <;>
    simp [normalizeHeaders, hr, hct]

theorem ajaxPrepare_data (store : HStore) (o : OptionsObj) :
    (ajaxPrepare store o).opts.data = serializeData (activeCT store o) o.data := by
  show serializeData (activeCT store o) ((normalizeHeaders store o).2.data) =
    serializeData (activeCT store o) o.data
  rw [normalizeHeaders_data]

theorem ajaxPrepare_payload (store : HStore) (o : OptionsObj) :
    (ajaxPrepare store o).payload = sendPayload ((ajaxPrepare store o).opts.data) :=
  rfl

/-- C6: for an object body (non-null, not `FormData`): with the active
`Content-Type` header exactly `application/json` the descriptor's data is
replaced by the JSON serialization of the body and that string is sent;
otherwise the body's own enumerable entries are percent-encoded and joined as
`key=value` pairs with `&` in enumeration order, and that string is sent. -/
theorem object_body_serialization (store : HStore) (o : OptionsObj)
    (es : List (Str × JSPrim)) (hd : o.data = JSData.dObj es) :
    (activeCT store o = some ctJson →
      (ajaxPrepare store o).opts.data = JSData.dStr (jsonStringifyObj es)
      ∧ (ajaxPrepare store o).payload =
          sendPayload (JSData.dStr (jsonStringifyObj es)))
    ∧ (¬ activeCT store o = some ctJson →
      (ajaxPrepare store o).opts.data = JSData.dStr (urlEncodeEntries es)
      ∧ (ajaxPrepare store o).payload =
          sendPayload (JSData.dStr (urlEncodeEntries es))) := by
  have hdata := ajaxPrepare_data store o
  rw [hd] at hdata
  constructor
  · intro hct
    have hser : serializeData (activeCT store o) (JSData.dObj es) =
        JSData.dStr (jsonStringifyObj es) := by
      simp only [serializeData]
      rw [if_pos ⟨rfl, hct⟩]
      rfl
    have h1 := hdata.trans hser
    exact ⟨h1, by rw [ajaxPrepare_payload, h1]⟩
  · intro hct
    have hcond1 : ¬ (isObjType (JSData.dObj es) = true
        ∧ activeCT store o = some ctJson) := fun h => hct h.2
    have hser : serializeData (activeCT store o) (JSData.dObj es) =
        JSData.dStr (urlEncodeEntries es) := by
      simp only [serializeData]
      rw [if_neg hcond1, if_pos ⟨rfl, rfl⟩]
      rfl
    have h1 := hdata.trans hser
    exact ⟨h1, by rw [ajaxPrepare_payload, h1]⟩

def bodyW : List (Str × JSPrim) :=
  [(("foo").toList, JSPrim.pstr (("a b").toList)),
   (("bar").toList, JSPrim.pnum 2)]

def optsNoCTW : OptionsObj :=
  { method := none, url := ("u").toList, data := JSData.dObj bodyW,
    headersRef := none, contentType := none, asyncOpt := none, user := none,
    password := none, cometEnabled := false }

def optsJsonW : OptionsObj := { optsNoCTW with contentType := some ctJson }

def optsFormJsonW : OptionsObj :=
  { optsNoCTW with data := JSData.dForm, contentType := some ctJson }

def optsStrW : OptionsObj := { optsNoCTW with data := JSData.dStr (("raw").toList) }

def optsAbsW : OptionsObj := { optsNoCTW with data := JSData.dAbsent }

def optsFormW : OptionsObj := { optsNoCTW with data := JSData.dForm }

theorem object_body_serialization_witness :
    (¬ activeCT [] optsNoCTW = some ctJson)
    ∧ ((ajaxPrepare [] optsNoCTW).opts.data =
          JSData.dStr (urlEncodeEntries bodyW)
        ∧ (ajaxPrepare [] optsNoCTW).payload =
          sendPayload (JSData.dStr (urlEncodeEntries bodyW)))
    ∧ (ajaxPrepare [] optsNoCTW).payload =
        Payload.pStr (("foo=a%20b&bar=2").toList)
    ∧ (activeCT [] optsJsonW = some ctJson)
    ∧ ((ajaxPrepare [] optsJsonW).opts.data =
          JSData.dStr (jsonStringifyObj bodyW)
        ∧ (ajaxPrepare [] optsJsonW).payload =
          sendPayload (JSData.dStr (jsonStringifyObj bodyW))) :=
  ⟨by decide,
   (object_body_serialization [] optsNoCTW bodyW rfl).2 (by decide),
   by decide,
   by decide,
   (object_body_serialization [] optsJsonW bodyW rfl).1 (by decide)⟩

/-- C7 (amended): a string body and an absent body pass through to the send
step unchanged, an absent body sends a null payload, and a `FormData` body
passes through unchanged whenever the active `Content-Type` header is not
exactly `application/json`; with that header, a `FormData` body is instead
JSON-serialized (to the empty-object string). -/
theorem passthrough_bodies (store : HStore) (o : OptionsObj) (s : Str) :
    (o.data = JSData.dStr s → (ajaxPrepare store o).opts.data = JSData.dStr s)
    ∧ (o.data = JSData.dAbsent →
        (ajaxPrepare store o).opts.data = JSData.dAbsent
        ∧ (ajaxPrepare store o).payload = Payload.pNull)
    ∧ (o.data = JSData.dForm → ¬ activeCT store o = some ctJson →
        (ajaxPrepare store o).opts.data = JSData.dForm
        ∧ (ajaxPrepare store o).payload = Payload.pForm)
    ∧ (o.data = JSData.dForm → activeCT store o = some ctJson →
        (ajaxPrepare store o).opts.data =
          JSData.dStr (jsonStringifyData JSData.dForm)) := by
  have hdata := ajaxPrepare_data store o
  refine ⟨?_, ?_, ?_, ?_⟩
  · intro hd
    rw [hd] at hdata
    rw [hdata]
    simp [serializeData, isObjType]
  · intro hd
    rw [hd] at hdata
    have h1 : (ajaxPrepare store o).opts.data = JSData.dAbsent := by
      rw [hdata]; simp [serializeData, isObjType]
    exact ⟨h1, by rw [ajaxPrepare_payload, h1]; rfl⟩
  · intro hd hct
    rw [hd] at hdata
    have h1 : (ajaxPrepare store o).opts.data = JSData.dForm := by
      rw [hdata]; simp [serializeData, isObjType, isFormData, hct]
    exact ⟨h1, by rw [ajaxPrepare_payload, h1]; rfl⟩
  · intro hd hct
    rw [hd] at hdata
    rw [hdata]
    simp [serializeData, isObjType, hct]

/-- C7 counterexample: a `FormData` body under `contentType:
'application/json'` is not passed through — it is JSON-stringified to the
two-character empty-object string, which is what gets sent. -/
theorem passthrough_counterexample :
    ¬ ((ajaxPrepare [] optsFormJsonW).opts.data = JSData.dForm)
    ∧ (ajaxPrepare [] optsFormJsonW).opts.data =
        JSData.dStr (Char.ofNat 123 :: [Char.ofNat 125])
    ∧ (ajaxPrepare [] optsFormJsonW).payload =
        Payload.pStr (Char.ofNat 123 :: [Char.ofNat 125]) := by
  decide

theorem passthrough_bodies_witness :
    ((ajaxPrepare [] optsStrW).opts.data = JSData.dStr (("raw").toList))
    ∧ ((ajaxPrepare [] optsAbsW).opts.data = JSData.dAbsent
        ∧ (ajaxPrepare [] optsAbsW).payload = Payload.pNull)
    ∧ ((ajaxPrepare [] optsFormW).opts.data = JSData.dForm
        ∧ (ajaxPrepare [] optsFormW).payload = Payload.pForm) :=
  ⟨(passthrough_bodies [] optsStrW (("raw").toList)).1 rfl,
   (passthrough_bodies [] optsAbsW []).2.1 rfl,
   (passthrough_bodies [] optsFormW []).2.2.1 rfl (by decide)⟩

/-- C8: the async flag handed to `xhr.open` is computed as
`options.async || true`, so it equals `true` for every supplied value —
truthy, falsy, an explicit `false`, or omitted. -/
theorem async_flag_always_true (store : HStore) (o : OptionsObj)
    (b : Option Bool) :
    (ajaxPrepare store o).openArgs.async = jsOrB o.asyncOpt true
    ∧ jsOrB b true = true
    ∧ jsOrB (some false) true = true
    ∧ (ajaxPrepare store o).openArgs.async = true := by
  refine ⟨rfl, ?_, rfl, ?_⟩
  · cases b with
    | none => rfl
    | some bb => cases bb <;> rfl
  · show jsOrB o.asyncOpt true = true
    cases o.asyncOpt with
    | none => rfl
    | some bb => cases bb <;> rfl

theorem getProp_setProp_self (es : List (Str × Str)) (k v : Str) :
    getProp (setProp es k v) k = some v := by
  induction es with
  | nil => simp [setProp, getProp]
  | cons p t ih =>
    rcases p with ⟨k', v'⟩
    by_cases hk : k' = k
    · simp [setProp, getProp, hk]
    · simp [setProp, getProp, hk, ih]

theorem getD_set_self {α : Type} (l : List α) (r : Nat) (x d : α)
    (h : r < l.length) : (l.set r x).getD r d = x := by
  induction l generalizing r with
  | nil => simp at h
  | cons a t ih =>
    cases r with
    | zero => rfl
    | succ n =>
      rw [show (a :: t).set (n + 1) x = a :: t.set n x from rfl,
        List.getD_cons_succ]
      exact ih n (by simpa using h)

theorem getD_append_len {α : Type} (l : List α) (x d : α) :
    (l ++ [x]).getD l.length d = x := by
  induction l with
  | nil => rfl
  | cons a t ih =>
    rw [show ((a :: t) ++ [x] : List α) = a :: (t ++ [x]) from rfl,
      show (a :: t).length = t.length + 1 from rfl, List.getD_cons_succ]
    exact ih

theorem normalizeHeaders_store_length (store : HStore) (o : OptionsObj) :
    (normalizeHeaders store o).1.length =
      (match o.headersRef with
       | none => store.length + 1
       | some _ => store.length) := by
  rcases hr : o.headersRef with _ | r <;>
    rcases hct2 : o.contentType with _ | ⟨_ | ⟨c, cs⟩⟩ <;>
    simp [normalizeHeaders, hr, hct2, List.length_set]

/-- C10: the dispatcher mutates the caller's structured descriptor in place,
and the mutations are visible through the caller's references after the call:
a fresh headers object is allocated exactly when none was supplied (an
existing headers object keeps its identity and is updated in place), a truthy
`contentType` shorthand ends up as the headers object's `Content-Type` entry,
and an object body's `data` field is replaced by its serialized string form. -/
theorem options_mutation_visible (store : HStore) (o : OptionsObj)
    (rhdr : Nat) (ct : Str) :
    (o.headersRef = none →
      (ajaxPrepare store o).opts.headersRef = some store.length
      ∧ (ajaxPrepare store o).store.length = store.length + 1)
    ∧ (o.headersRef = some rhdr →
      (ajaxPrepare store o).opts.headersRef = some rhdr
      ∧ (ajaxPrepare store o).store.length = store.length)
    ∧ (o.contentType = some ct → ct ≠ [] →
      (o.headersRef = none
        ∨ (∃ rr, o.headersRef = some rr ∧ rr < store.length)) →
      getProp ((ajaxPrepare store o).store.getD
        (((ajaxPrepare store o).opts.headersRef).getD 0) []) ctKey = some ct)
    ∧ (isObjType o.data = true →
      (activeCT store o = some ctJson ∨ isFormData o.data = false) →
      ∃ sd, (ajaxPrepare store o).opts.data = JSData.dStr sd
        ∧ (ajaxPrepare store o).opts.data =
            serializeData (activeCT store o) o.data) := by
  refine ⟨?_, ?_, ?_, ?_⟩
  · intro hr
    constructor
    · show (normalizeHeaders store o).2.headersRef = some store.length
      rw [normalizeHeaders_ref, hr]
    · show (normalizeHeaders store o).1.length = store.length + 1
      rw [normalizeHeaders_store_length, hr]
  · intro hr
    constructor
    · show (normalizeHeaders store o).2.headersRef = some rhdr
      rw [normalizeHeaders_ref, hr]
    · show (normalizeHeaders store o).1.length = store.length
      rw [normalizeHeaders_store_length, hr]
  · intro hctv hne hval
    obtain ⟨c, cs, hcc⟩ : ∃ c cs, ct = c :: cs := by
      cases ct with
      | nil => exact absurd rfl hne
      | cons c cs => exact ⟨c, cs, rfl⟩
    subst hcc
    rcases hval with hr | ⟨rr, hr, hlt⟩
    · have hnh : normalizeHeaders store o =
          ((store ++ [[]]).set store.length
            (setProp ((store ++ [[]]).getD store.length []) ctKey (c :: cs)),
           { o with headersRef := some store.length }) := by
        simp [normalizeHeaders, hr, hctv]
      show getProp (((normalizeHeaders store o).1).getD
        (((normalizeHeaders store o).2.headersRef).getD 0) []) ctKey =
        some (c :: cs)
      rw [hnh]
      show getProp (((store ++ [[]]).set store.length
        (setProp ((store ++ [[]]).getD store.length []) ctKey (c :: cs))).getD
        store.length []) ctKey = some (c :: cs)
      rw [getD_append_len]
      rw [getD_set_self _ _ _ _ (by simp)]
      exact getProp_setProp_self [] ctKey (c :: cs)
    · have hnh : normalizeHeaders store o =
          (store.set rr (setProp (store.getD rr []) ctKey (c :: cs)), o) := by
        simp [normalizeHeaders, hr, hctv]
      show getProp (((normalizeHeaders store o).1).getD
        (((normalizeHeaders store o).2.headersRef).getD 0) []) ctKey =
        some (c :: cs)
      rw [hnh]
      show getProp ((store.set rr
        (setProp (store.getD rr []) ctKey (c :: cs))).getD
        ((o.headersRef).getD 0) []) ctKey = some (c :: cs)
      rw [hr]
      show getProp ((store.set rr
        (setProp (store.getD rr []) ctKey (c :: cs))).getD rr []) ctKey =
        some (c :: cs)
      rw [getD_set_self _ _ _ _ hlt]
      exact getProp_setProp_self _ ctKey (c :: cs)
  · intro hobj hcase
    have hdata0 := ajaxPrepare_data store o
    rcases hdd : o.data with es | _ | s2 | _
    · rw [hdd] at hdata0
      by_cases hjson : activeCT store o = some ctJson
      · refine ⟨jsonStringifyObj es, ?_, hdata0⟩
        rw [hdata0]
        simp only [serializeData]
        rw [if_pos ⟨rfl, hjson⟩]
        rfl
      · refine ⟨urlEncodeEntries es, ?_, hdata0⟩
        rw [hdata0]
        simp only [serializeData]
        rw [if_neg (fun h => hjson h.2), if_pos ⟨rfl, rfl⟩]
        rfl
    · rw [hdd] at hdata0
      rcases hcase with hjson | habs
      · refine ⟨jsonStringifyData JSData.dForm, ?_, hdata0⟩
        rw [hdata0]
        simp only [serializeData]
        rw [if_pos ⟨rfl, hjson⟩]
      · rw [hdd] at habs
        exact absurd habs (by simp [isFormData])
    · rw [hdd] at hobj
      exact absurd hobj (by simp [isObjType])
    · rw [hdd] at hobj
      exact absurd hobj (by simp [isObjType])

def hdrStoreW : HStore := [[(("X-Custom").toList, ("1").toList)]]

def optsHdrW : OptionsObj :=
  { optsNoCTW with
      headersRef := some 0
      contentType := some (("text/plain").toList) }

theorem options_mutation_visible_witness :
    ((ajaxPrepare ([] : HStore) optsJsonW).opts.headersRef =
        some ([] : HStore).length
      ∧ (ajaxPrepare ([] : HStore) optsJsonW).store.length =
        ([] : HStore).length + 1)
    ∧ ((ajaxPrepare hdrStoreW optsHdrW).opts.headersRef = some 0
      ∧ (ajaxPrepare hdrStoreW optsHdrW).store.length = hdrStoreW.length)
    ∧ getProp ((ajaxPrepare hdrStoreW optsHdrW).store.getD
        (((ajaxPrepare hdrStoreW optsHdrW).opts.headersRef).getD 0) []) ctKey =
        some (("text/plain").toList)
    ∧ (∃ sd, (ajaxPrepare ([] : HStore) optsNoCTW).opts.data = JSData.dStr sd
        ∧ (ajaxPrepare ([] : HStore) optsNoCTW).opts.data =
            serializeData (activeCT ([] : HStore) optsNoCTW) optsNoCTW.data) :=
  ⟨(options_mutation_visible [] optsJsonW 0 ctJson).1 rfl,
   (options_mutation_visible hdrStoreW optsHdrW 0
      (("text/plain").toList)).2.1 rfl,
   (options_mutation_visible hdrStoreW optsHdrW 0
      (("text/plain").toList)).2.2.1 rfl (by decide)
      (Or.inr ⟨0, rfl, by decide⟩),
   (options_mutation_visible [] optsNoCTW 0 ctJson).2.2.2 (by decide)
      (Or.inr (by decide))⟩
